import Mathlib

/-!
Verification of `examples/is_greater_than_42.c`.

A shallow embedding of the two C functions of the file, `is_greater_than_42`
and `main`, followed by theorems about them.

Modelling conventions.

* A `char` is represented by the `int` value it promotes to.  Whether plain
  `char` is signed is implementation-defined, so a char value is any integer
  in `-128..127` (signed) or `0..255` (unsigned); `IsChar` is the union.
* The character array is a `List Int`.  A pointer into it is the offset from
  its first element.  Reading at an offset goes through the `Option`-valued
  index `mem[i]?`; a read outside the array is the fault `Res.outOfBounds`.
* `int` arithmetic is 32-bit two's complement: every `+` and `-` of the source
  is followed by `wrapInt`.
* The `for` loop is run with a budget of condition evaluations (`fuel`);
  exhausting it is the separate outcome `Res.outOfFuel`.
* Functions pass the memory explicitly: `is_greater_than_42` returns its `int`
  result together with the contents of the array after the call.
-/

namespace Doco

/-- Outcome of running a piece of the program. -/
inductive Res (α : Type) where
  /-- Normal completion with a value. -/
  | ok (a : α) : Res α
  /-- A read outside the array object. -/
  | outOfBounds : Res α
  /-- The loop budget of the model was exhausted. -/
  | outOfFuel : Res α
  deriving DecidableEq

/-- The value range of a C `char` after promotion to `int`, under either
signedness of `char`. -/
def IsChar (b : Int) : Prop := -128 ≤ b ∧ b ≤ 255

instance (b : Int) : Decidable (IsChar b) := by
  unfold IsChar; exact inferInstance

/-- Reduction of an integer to the 32-bit two's complement range of `int`. -/
def wrapInt (x : Int) : Int := (x + 2147483648) % 4294967296 - 2147483648

/-- Local state of `is_greater_than_42` while its loop runs, together with the
memory it reads: `mem` is the array `buffer` points to, `c` is the loop
pointer as an offset from `buffer`, `num` is the running total. -/
structure State where
  mem : List Int
  c : Nat
  num : Int
  deriving DecidableEq

/-- One evaluation of the loop condition `*c`, followed, when it is non-zero,
by the body `num += *c - '0'` and the increment `c++`.  The result is `none`
when the condition is false (the loop exits). -/
def loopStep (s : State) : Res (Option State) :=
  match s.mem[s.c]? with
  | none => Res.outOfBounds
  | some v =>
    if v = 0 then Res.ok none
    else Res.ok (some { s with num := wrapInt (s.num + wrapInt (v - 48)), c := s.c + 1 })

/-- The loop `for (char *c = buffer; *c; c++) num += *c - '0';` started in
state `s`; the result is the state in which the condition was found false. -/
def loop : Nat → State → Res State
  | 0, _ => Res.outOfFuel
  | fuel + 1, s =>
    match loopStep s with
    | Res.outOfBounds => Res.outOfBounds
    | Res.outOfFuel => Res.outOfFuel
    | Res.ok none => Res.ok s
    | Res.ok (some s') => loop fuel s'

/-- The function `is_greater_than_42(char *buffer)`, where `mem` is the array
`buffer` points to the start of.  Returns the `int` result (0 or 1) and the
array after the call. -/
def is_greater_than_42 (fuel : Nat) (mem : List Int) : Res (Int × List Int) :=
  -- int num = 0;
  let num : Int := 0
  match mem[0]? with
  | none => Res.outOfBounds
  | some b0 =>
    -- if (!*buffer) return 0;
    if b0 = 0 then Res.ok (0, mem)
    -- if ('-' == *buffer) return 0;
    else if 45 = b0 then Res.ok (0, mem)
    else
      -- for (char *c = buffer; *c; c++) num += *c - '0';
      match loop fuel { mem := mem, c := 0, num := num } with
      | Res.outOfBounds => Res.outOfBounds
      | Res.outOfFuel => Res.outOfFuel
      -- return num > 42;
      | Res.ok s => Res.ok (if s.num > 42 then 1 else 0, s.mem)

/-- Modelled from the spec: the external operation `klee_make_symbolic(&a,
nbytes, label)` of the symbolic input provider, which is not part of the
repository.  The provider's choice is the list `assignment`; its first
`nbytes` bytes replace the first `nbytes` bytes of the array. -/
def klee_make_symbolic (a : List Int) (nbytes : Nat) (assignment : List Int) : List Int :=
  assignment.take nbytes ++ a.drop nbytes

/-- The array of `main` after `a[10] = 0`, for the assignment chosen by the
input provider. -/
def clampedBuffer (assignment : List Int) : List Int :=
  -- char a[11] = {0};
  let a : List Int := List.replicate 11 0
  -- klee_make_symbolic(&a, sizeof(a), "a");
  let a := klee_make_symbolic a 11 assignment
  -- a[10] = 0;
  a.set 10 0

/-- The function `main`: builds the array, lets the provider fill it, clamps
the last byte and returns `!is_greater_than_42(a)`. -/
def main (fuel : Nat) (assignment : List Int) : Res Int :=
  match is_greater_than_42 fuel (clampedBuffer assignment) with
  | Res.outOfBounds => Res.outOfBounds
  | Res.outOfFuel => Res.outOfFuel
  | Res.ok (r, _) => Res.ok (if r = 0 then 1 else 0)

/-- Two successive calls of `is_greater_than_42` on the same array: the second
call runs on the memory the first call left.  Returns both results and the
final memory. -/
def callTwice (fuel₁ fuel₂ : Nat) (mem : List Int) : Res (Int × Int × List Int) :=
  match is_greater_than_42 fuel₁ mem with
  | Res.outOfBounds => Res.outOfBounds
  | Res.outOfFuel => Res.outOfFuel
  | Res.ok (r₁, mem₁) =>
    match is_greater_than_42 fuel₂ mem₁ with
    | Res.outOfBounds => Res.outOfBounds
    | Res.outOfFuel => Res.outOfFuel
    | Res.ok (r₂, mem₂) => Res.ok (r₁, r₂, mem₂)

/-- The bytes of a buffer strictly before its first 0 byte. -/
def content (mem : List Int) : List Int := mem.takeWhile (fun b => b ≠ 0)

/-- The sum of `byte - 48` over the bytes strictly before the first 0 byte,
in exact integer arithmetic. -/
def digitSum (mem : List Int) : Int := ((content mem).map (fun b => b - 48)).sum

/-- The running total the loop computes over a list of bytes, starting from
`num`, with the 32-bit reduction after each operation. -/
def wrapSum (num : Int) (l : List Int) : Int :=
  l.foldl (fun n v => wrapInt (n + wrapInt (v - 48))) num

/-- The state of the loop after `k` executions of its body, started in state
`s`; `none` when the loop does not run that long (it exits or faults
earlier). -/
def stateAfter : Nat → State → Option State
  | 0, s => some s
  | k + 1, s =>
    match loopStep s with
    | Res.ok (some s') => stateAfter k s'
    | _ => none

/-- The step of the loop with exact (unbounded) integer arithmetic in place of
the 32-bit `int` arithmetic: the same as `loopStep` without `wrapInt`. -/
def loopStepExact (s : State) : Res (Option State) :=
  match s.mem[s.c]? with
  | none => Res.outOfBounds
  | some v =>
    if v = 0 then Res.ok none
    else Res.ok (some { s with num := s.num + (v - 48), c := s.c + 1 })

/-- The loop with exact integer arithmetic: the same as `loop` over
`loopStepExact`. -/
def loopExact : Nat → State → Res State
  | 0, _ => Res.outOfFuel
  | fuel + 1, s =>
    match loopStepExact s with
    | Res.outOfBounds => Res.outOfBounds
    | Res.outOfFuel => Res.outOfFuel
    | Res.ok none => Res.ok s
    | Res.ok (some s') => loopExact fuel s'

/-- The function `is_greater_than_42` with exact integer arithmetic: the same
as `is_greater_than_42` over `loopExact`. -/
def is_greater_than_42_exact (fuel : Nat) (mem : List Int) : Res (Int × List Int) :=
  let num : Int := 0
  match mem[0]? with
  | none => Res.outOfBounds
  | some b0 =>
    if b0 = 0 then Res.ok (0, mem)
    else if 45 = b0 then Res.ok (0, mem)
    else
      match loopExact fuel { mem := mem, c := 0, num := num } with
      | Res.outOfBounds => Res.outOfBounds
      | Res.outOfFuel => Res.outOfFuel
      | Res.ok s => Res.ok (if s.num > 42 then 1 else 0, s.mem)

/-- The simplified classifier, without the check for an empty buffer: 0 when
the first byte is 45 (the minus sign), and otherwise 1 exactly when the sum of
`byte - 48` over the bytes before the first 0 byte exceeds 42, the empty sum
being 0. -/
def simplified_is_greater_than_42 (mem : List Int) : Int :=
  if mem[0]? = some 45 then 0
  else if digitSum mem > 42 then 1 else 0

/-- The loop invariant for an 11-byte buffer of chars with last byte 0: the
offset is at most 10 and the running total lies between `-176 * c` and
`207 * c`, the least and greatest sums of `c` values `char - 48`. -/
def LoopInv (s : State) : Prop :=
  s.mem[10]? = some 0 ∧ (∀ b ∈ s.mem, IsChar b) ∧ s.c ≤ 10 ∧
    -176 * (s.c : Int) ≤ s.num ∧ s.num ≤ 207 * (s.c : Int)

/-! ## Auxiliary lemmas -/

theorem wrapInt_of_bounds (x : Int) (hlo : -2147483648 ≤ x) (hhi : x ≤ 2147483647) :
    wrapInt x = x := by
  unfold wrapInt
  omega

theorem content_nil : content [] = [] := rfl

theorem content_cons_zero (rest : List Int) : content (0 :: rest) = [] := by
  simp [content]

theorem content_cons_ne (v : Int) (rest : List Int) (hv : v ≠ 0) :
    content (v :: rest) = v :: content rest := by
  simp [content, List.takeWhile_cons, hv]

theorem content_length_le (mem : List Int) :
    ∀ i : Nat, mem[i]? = some 0 → (content mem).length ≤ i := by
  induction mem with
  | nil => intro i h; simp at h
  | cons v rest ih =>
    intro i h
    by_cases hv : v = 0
    · subst hv; simp [content_cons_zero]
    · cases i with
      | zero => simp at h; exact absurd h hv
      | succ j =>
        rw [content_cons_ne v rest hv]
        have := ih j (by simpa using h)
        simp only [List.length_cons]
        omega

theorem zero_mem_of_getElem? (mem : List Int) (i : Nat) (h : mem[i]? = some 0) :
    (0 : Int) ∈ mem := by
  rw [List.mem_iff_getElem?]
  exact ⟨i, h⟩

theorem content_eq_take (mem : List Int) : mem.take (content mem).length = content mem := by
  induction mem with
  | nil => rfl
  | cons v rest ih =>
    by_cases hv : v = 0
    · subst hv; simp [content_cons_zero]
    · rw [content_cons_ne v rest hv]
      simp only [List.length_cons, List.take_succ_cons, ih]

theorem content_subset (mem : List Int) : ∀ b ∈ content mem, b ∈ mem := by
  intro b hb
  exact (List.takeWhile_sublist _).subset hb

theorem getElem?_append_length (pre : List Int) (v : Int) (rest : List Int) :
    (pre ++ v :: rest)[pre.length]? = some v := by
  rw [List.getElem?_append_right (Nat.le_refl _)]
  simp

/-- The loop, started at offset `pre.length` of the array `pre ++ rest` where
`rest` holds a 0 byte, stops at the first 0 byte of `rest` with the memory
unchanged and the wrapped running total of the bytes before it. -/
theorem loop_run (rest : List Int) :
    ∀ (pre : List Int) (num : Int) (fuel : Nat), (0 : Int) ∈ rest →
      (content rest).length < fuel →
      loop fuel { mem := pre ++ rest, c := pre.length, num := num } =
        Res.ok { mem := pre ++ rest, c := pre.length + (content rest).length,
                 num := wrapSum num (content rest) } := by
  induction rest with
  | nil => intro pre num fuel h0; simp at h0
  | cons v rest ih =>
    intro pre num fuel h0 hf
    cases fuel with
    | zero => omega
    | succ f =>
      by_cases hv : v = 0
      · subst hv
        simp only [loop, loopStep, getElem?_append_length, if_true, content_cons_zero,
          List.length_nil, Nat.add_zero, wrapSum, List.foldl_nil]
      · have h0' : (0 : Int) ∈ rest := by
          rcases List.mem_cons.mp h0 with h | h
          · exact absurd h.symm hv
          · exact h
        rw [content_cons_ne v rest hv] at hf ⊢
        simp only [List.length_cons] at hf
        have hstep := ih (pre ++ [v]) (wrapInt (num + wrapInt (v - 48))) f h0' (by omega)
        simp only [List.append_assoc, List.singleton_append, List.length_append,
          List.length_singleton] at hstep
        simp only [loop, loopStep, getElem?_append_length, hv, if_false]
        rw [hstep]
        simp only [wrapSum, List.foldl_cons, List.length_cons]
        congr 2
        omega

/-- Without overflow the wrapped running total is the exact sum. -/
theorem wrapSum_exact (l : List Int) :
    ∀ num : Int, (∀ b ∈ l, IsChar b) →
      -2147483648 + 176 * (l.length : Int) ≤ num →
      num + 207 * (l.length : Int) ≤ 2147483647 →
      wrapSum num l = num + (l.map (fun b => b - 48)).sum := by
  induction l with
  | nil => intro num _ _ _; simp [wrapSum]
  | cons v rest ih =>
    intro num hc hlo hhi
    have hv : IsChar v := hc v (List.mem_cons_self v rest)
    unfold IsChar at hv
    simp only [List.length_cons, Nat.cast_add, Nat.cast_one] at hlo hhi
    have hpos : (0 : Int) ≤ (rest.length : Int) := Int.ofNat_nonneg _
    have h1 : wrapInt (v - 48) = v - 48 := wrapInt_of_bounds _ (by omega) (by omega)
    have h2 : wrapInt (num + (v - 48)) = num + (v - 48) :=
      wrapInt_of_bounds _ (by omega) (by omega)
    have hrest := ih (num + (v - 48)) (fun b hb => hc b (List.mem_cons_of_mem v hb))
      (by omega) (by omega)
    simp only [wrapSum, List.foldl_cons, h1, h2, List.map_cons, List.sum_cons] at hrest ⊢
    rw [hrest]
    ring

/-- The result of `is_greater_than_42` on any array that holds a 0 byte, with
enough budget to reach it. -/
theorem is_greater_than_42_eval (fuel : Nat) (mem : List Int) (h0 : (0 : Int) ∈ mem)
    (hf : (content mem).length < fuel) :
    is_greater_than_42 fuel mem =
      Res.ok (if mem[0]? = some 0 ∨ mem[0]? = some 45 then 0
              else if wrapSum 0 (content mem) > 42 then 1 else 0, mem) := by
  have hrun := loop_run mem [] 0 fuel h0 hf
  simp only [List.nil_append, List.length_nil] at hrun
  cases mem with
  | nil => simp at h0
  | cons b rest =>
    unfold is_greater_than_42
    simp only [List.getElem?_cons_zero, Option.some.injEq]
    by_cases hb0 : b = 0
    · simp [hb0]
    · by_cases hb45 : b = 45
      · simp [hb45]
      · have hb45' : ¬ (45 : Int) = b := fun h => hb45 h.symm
        simp only [hb0, hb45, hb45', if_false, or_self]
        rw [hrun]

/-- With a budget too small to reach the first 0 byte the loop reports the
exhausted budget, never a read outside the array. -/
theorem loop_short (rest : List Int) :
    ∀ (pre : List Int) (num : Int) (fuel : Nat), (0 : Int) ∈ rest →
      fuel ≤ (content rest).length →
      loop fuel { mem := pre ++ rest, c := pre.length, num := num } = Res.outOfFuel := by
  induction rest with
  | nil => intro pre num fuel h0; simp at h0
  | cons v rest ih =>
    intro pre num fuel h0 hf
    cases fuel with
    | zero => rfl
    | succ f =>
      by_cases hv : v = 0
      · subst hv
        rw [content_cons_zero] at hf
        simp at hf
      · have h0' : (0 : Int) ∈ rest := by
          rcases List.mem_cons.mp h0 with h | h
          · exact absurd h.symm hv
          · exact h
        rw [content_cons_ne v rest hv] at hf
        simp only [List.length_cons] at hf
        have hstep := ih (pre ++ [v]) (wrapInt (num + wrapInt (v - 48))) f h0' (by omega)
        simp only [List.append_assoc, List.singleton_append, List.length_append,
          List.length_singleton] at hstep
        simp only [loop, loopStep, getElem?_append_length, hv, if_false]
        rw [hstep]

/-- A step of the loop leaves the memory as it was. -/
theorem loopStep_mem (s s' : State) (h : loopStep s = Res.ok (some s')) : s'.mem = s.mem := by
  unfold loopStep at h
  cases hg : s.mem[s.c]? with
  | none => rw [hg] at h; simp at h
  | some v =>
    rw [hg] at h
    by_cases hv : v = 0
    · simp [hv] at h
    · simp only [hv, if_false, Res.ok.injEq, Option.some.injEq] at h
      rw [← h]

/-- The loop leaves the memory as it was. -/
theorem loop_mem (fuel : Nat) :
    ∀ s s' : State, loop fuel s = Res.ok s' → s'.mem = s.mem := by
  induction fuel with
  | zero => intro s s' h; simp [loop] at h
  | succ f ih =>
    intro s s' h
    unfold loop at h
    cases hstep : loopStep s with
    | outOfBounds => rw [hstep] at h; simp at h
    | outOfFuel => rw [hstep] at h; simp at h
    | ok o =>
      rw [hstep] at h
      cases o with
      | none =>
        simp only [Res.ok.injEq] at h
        rw [← h]
      | some s₁ =>
        simp only at h
        rw [ih s₁ s' h, loopStep_mem s s₁ hstep]

/-- The frame property of `is_greater_than_42` for every array and budget. -/
theorem is_greater_than_42_mem (fuel : Nat) (mem : List Int) (r : Int) (mem' : List Int)
    (h : is_greater_than_42 fuel mem = Res.ok (r, mem')) : mem' = mem := by
  unfold is_greater_than_42 at h
  cases hg : mem[0]? with
  | none => rw [hg] at h; simp at h
  | some b =>
    rw [hg] at h
    simp only at h
    by_cases hb0 : b = 0
    · simp only [hb0, if_true, Res.ok.injEq, Prod.mk.injEq] at h
      exact h.2.symm
    · by_cases hb45 : (45 : Int) = b
      · simp only [hb0, hb45, if_true, if_false, Res.ok.injEq, Prod.mk.injEq] at h
        exact h.2.symm
      · simp only [hb0, hb45, if_false] at h
        cases hl : loop fuel { mem := mem, c := 0, num := 0 } with
        | outOfBounds => rw [hl] at h; simp at h
        | outOfFuel => rw [hl] at h; simp at h
        | ok s =>
          rw [hl] at h
          simp only [Res.ok.injEq, Prod.mk.injEq] at h
          rw [← h.2]
          exact loop_mem fuel _ s hl

/-- An 11-byte buffer with last byte 0 holds a 0 byte and has at most 10 bytes
before the first one. -/
theorem shaped_content (mem : List Int) (hlast : mem[10]? = some 0) :
    (0 : Int) ∈ mem ∧ (content mem).length ≤ 10 :=
  ⟨zero_mem_of_getElem? mem 10 hlast, content_length_le mem 10 hlast⟩

/-- For an 11-byte assignment the array of `main` after the clamp is the
assignment with index 10 overwritten by 0. -/
theorem clampedBuffer_eq (assignment : List Int) (hlen : assignment.length = 11) :
    clampedBuffer assignment = assignment.set 10 0 := by
  unfold clampedBuffer klee_make_symbolic
  rw [List.take_of_length_le (by omega)]
  simp

theorem clampedBuffer_length (assignment : List Int) (hlen : assignment.length = 11) :
    (clampedBuffer assignment).length = 11 := by
  rw [clampedBuffer_eq assignment hlen]
  simp [hlen]

theorem clampedBuffer_last (assignment : List Int) (hlen : assignment.length = 11) :
    (clampedBuffer assignment)[10]? = some 0 := by
  rw [clampedBuffer_eq assignment hlen]
  simp [hlen]

/-- On an 11-byte buffer with last byte 0 and a budget of at least 11 the loop
from the start of the buffer stops at the first 0 byte. -/
theorem shaped_loop (fuel : Nat) (mem : List Int) (hlast : mem[10]? = some 0)
    (hfuel : 11 ≤ fuel) :
    loop fuel { mem := mem, c := 0, num := 0 } =
      Res.ok { mem := mem, c := (content mem).length, num := wrapSum 0 (content mem) } := by
  have hs := shaped_content mem hlast
  have hrun := loop_run mem [] 0 fuel hs.1 (by omega)
  simpa using hrun

/-- The result of `is_greater_than_42` on an 11-byte buffer with last byte 0. -/
theorem shaped_eval (fuel : Nat) (mem : List Int) (hlast : mem[10]? = some 0)
    (hfuel : 11 ≤ fuel) :
    is_greater_than_42 fuel mem =
      Res.ok (if mem[0]? = some 0 ∨ mem[0]? = some 45 then 0
              else if wrapSum 0 (content mem) > 42 then 1 else 0, mem) := by
  have hs := shaped_content mem hlast
  exact is_greater_than_42_eval fuel mem hs.1 (by omega)

/-- On an 11-byte buffer with last byte 0 the function returns 0 or 1 and the
memory it was given. -/
theorem shaped_bool (fuel : Nat) (mem : List Int) (hlast : mem[10]? = some 0)
    (hfuel : 11 ≤ fuel) :
    is_greater_than_42 fuel mem = Res.ok (0, mem) ∨
      is_greater_than_42 fuel mem = Res.ok (1, mem) := by
  rw [shaped_eval fuel mem hlast hfuel]
  by_cases h1 : mem[0]? = some 0 ∨ mem[0]? = some 45
  · left; rw [if_pos h1]
  · rw [if_neg h1]
    by_cases h2 : wrapSum 0 (content mem) > 42
    · right; rw [if_pos h2]
    · left; rw [if_neg h2]

/-- On a buffer of chars with at most 10 bytes before the first 0 byte the
wrapped running total is the exact digit sum. -/
theorem shaped_wrapSum (mem : List Int) (hlast : mem[10]? = some 0)
    (hchar : ∀ b ∈ mem, IsChar b) : wrapSum 0 (content mem) = digitSum mem := by
  have hs := shaped_content mem hlast
  have hle : ((content mem).length : Int) ≤ 10 := by exact_mod_cast hs.2
  have hpos : (0 : Int) ≤ ((content mem).length : Int) := Int.ofNat_nonneg _
  have h := wrapSum_exact (content mem) 0 (fun b hb => hchar b (content_subset mem b hb))
    (by omega) (by omega)
  rw [h, digitSum]
  simp

/-- On an array that holds a 0 byte the loop from its start never reads outside
the array, whatever the budget. -/
theorem loop_no_oob (fuel : Nat) (mem : List Int) (num : Int) (h0 : (0 : Int) ∈ mem) :
    loop fuel { mem := mem, c := 0, num := num } ≠ Res.outOfBounds := by
  by_cases hf : (content mem).length < fuel
  · have h := loop_run mem [] num fuel h0 hf
    simp only [List.nil_append, List.length_nil] at h
    rw [h]
    exact fun hne => Res.noConfusion hne
  · have h := loop_short mem [] num fuel h0 (by omega)
    simp only [List.nil_append, List.length_nil] at h
    rw [h]
    exact fun hne => Res.noConfusion hne

/-- On an array that holds a 0 byte `is_greater_than_42` never reads outside
the array, whatever the budget. -/
theorem is_greater_than_42_no_oob (fuel : Nat) (mem : List Int) (h0 : (0 : Int) ∈ mem) :
    is_greater_than_42 fuel mem ≠ Res.outOfBounds := by
  have hl := loop_no_oob fuel mem 0 h0
  cases mem with
  | nil => simp at h0
  | cons b rest =>
    unfold is_greater_than_42
    simp only [List.getElem?_cons_zero]
    by_cases hb0 : b = 0
    · simp [hb0]
    · by_cases hb45 : (45 : Int) = b
      · simp [hb0, hb45]
      · simp only [hb0, hb45, if_false]
        cases hr : loop fuel { mem := b :: rest, c := 0, num := 0 } with
        | outOfBounds => exact absurd hr hl
        | outOfFuel => simp
        | ok s => simp

/-- For an 11-byte assignment the array of `main` after the clamp is the first
10 bytes of the assignment followed by a 0 byte. -/
theorem clampedBuffer_take (assignment : List Int) (hlen : assignment.length = 11) :
    clampedBuffer assignment = assignment.take 10 ++ [0] := by
  rw [clampedBuffer_eq assignment hlen, List.set_eq_take_append_cons_drop]
  have hd : assignment.drop 11 = [] := List.drop_of_length_le (by omega)
  simp [hlen, hd]

theorem wrapInt_add_wrapInt (a b : Int) :
    wrapInt (wrapInt a + wrapInt b) = wrapInt (a + b) := by
  unfold wrapInt
  omega

/-- The wrapped running total is the 32-bit reduction of the exact sum, for
bytes of any value. -/
theorem wrapSum_wrapInt (l : List Int) :
    ∀ n : Int, wrapSum (wrapInt n) l = wrapInt (n + (l.map (fun b => b - 48)).sum) := by
  induction l with
  | nil => intro n; simp [wrapSum]
  | cons v rest ih =>
    intro n
    have h := ih (n + (v - 48))
    simp only [wrapSum, List.foldl_cons, List.map_cons, List.sum_cons] at h ⊢
    rw [wrapInt_add_wrapInt, h]
    congr 1
    ring

theorem wrapSum_zero (l : List Int) :
    wrapSum 0 l = wrapInt ((l.map (fun b => b - 48)).sum) := by
  have h := wrapSum_wrapInt l 0
  have h0 : wrapInt 0 = 0 := by decide
  rw [h0] at h
  simpa using h

/-- A run of non-zero bytes followed by a 0 byte is the content of the
buffer, whatever follows the 0 byte. -/
theorem content_append_zero (s : List Int) (p : List Int) (hs : ∀ b ∈ s, b ≠ 0) :
    content (s ++ 0 :: p) = s := by
  induction s with
  | nil => exact content_cons_zero p
  | cons v rest ih =>
    have hv : v ≠ 0 := hs v (List.mem_cons_self v rest)
    rw [List.cons_append, content_cons_ne v _ hv,
      ih (fun b hb => hs b (List.mem_cons_of_mem v hb))]

/-- Two buffers that agree at every position up to and including the first 0
byte of the first one have the same content. -/
theorem content_congr (mem₁ : List Int) :
    ∀ mem₂ : List Int, (0 : Int) ∈ mem₁ →
      (∀ i : Nat, i ≤ (content mem₁).length → mem₁[i]? = mem₂[i]?) →
      content mem₂ = content mem₁ := by
  induction mem₁ with
  | nil => intro mem₂ h0; simp at h0
  | cons v rest ih =>
    intro mem₂ h0 hagree
    have hhead := hagree 0 (Nat.zero_le _)
    cases mem₂ with
    | nil => simp at hhead
    | cons w rest₂ =>
      simp only [List.getElem?_cons_zero, Option.some.injEq] at hhead
      subst hhead
      by_cases hv : v = 0
      · subst hv
        rw [content_cons_zero, content_cons_zero]
      · have h0' : (0 : Int) ∈ rest := by
          rcases List.mem_cons.mp h0 with h | h
          · exact absurd h.symm hv
          · exact h
        rw [content_cons_ne v rest hv, content_cons_ne v rest₂ hv]
        rw [content_cons_ne v rest hv] at hagree
        have hrest := ih rest₂ h0' (fun i hi => by
          have := hagree (i + 1) (by simp only [List.length_cons]; omega)
          simpa using this)
        rw [hrest]

/-- The empty-buffer check folded into the sum: on any array that holds a 0
byte, with enough budget, the result is 0 for a leading 45 and otherwise the
threshold test on the wrapped running total of the content. -/
theorem is_greater_than_42_eval_simplified (fuel : Nat) (mem : List Int)
    (h0 : (0 : Int) ∈ mem) (hf : (content mem).length < fuel) :
    is_greater_than_42 fuel mem =
      Res.ok (if mem[0]? = some 45 then 0
              else if wrapSum 0 (content mem) > 42 then 1 else 0, mem) := by
  rw [is_greater_than_42_eval fuel mem h0 hf]
  cases mem with
  | nil => simp at h0
  | cons b rest =>
    simp only [List.getElem?_cons_zero, Option.some.injEq]
    by_cases hb0 : b = 0
    · subst hb0
      have hw : ¬ wrapSum 0 (content (0 :: rest)) > 42 := by
        rw [content_cons_zero]; decide
      simp [hw]
    · simp [hb0]

/-- Under the loop invariant a step computes the same with 32-bit and with
exact arithmetic. -/
theorem loopStep_eq_exact (s : State) (hinv : LoopInv s) : loopStep s = loopStepExact s := by
  obtain ⟨_, hchar, hc, hlo, hhi⟩ := hinv
  unfold loopStep loopStepExact
  cases hg : s.mem[s.c]? with
  | none => rfl
  | some v =>
    have hv : IsChar v := hchar v (List.mem_iff_getElem?.mpr ⟨s.c, hg⟩)
    unfold IsChar at hv
    have hc' : (s.c : Int) ≤ 10 := by exact_mod_cast hc
    have hpos : (0 : Int) ≤ (s.c : Int) := Int.ofNat_nonneg _
    have h1 : wrapInt (v - 48) = v - 48 := wrapInt_of_bounds _ (by omega) (by omega)
    have h2 : wrapInt (s.num + (v - 48)) = s.num + (v - 48) :=
      wrapInt_of_bounds _ (by omega) (by omega)
    simp only [h1, h2]

/-- A step of the loop that continues keeps the loop invariant and advances
the offset by one. -/
theorem loopStep_inv (s s' : State) (hinv : LoopInv s)
    (hs : loopStep s = Res.ok (some s')) : LoopInv s' ∧ s'.c = s.c + 1 := by
  have hex := loopStep_eq_exact s hinv
  rw [hex] at hs
  obtain ⟨hlast, hchar, hc, hlo, hhi⟩ := hinv
  unfold loopStepExact at hs
  cases hg : s.mem[s.c]? with
  | none => rw [hg] at hs; simp at hs
  | some v =>
    rw [hg] at hs
    by_cases hv0 : v = 0
    · simp [hv0] at hs
    · simp only [hv0, if_false, Res.ok.injEq, Option.some.injEq] at hs
      have hv : IsChar v := hchar v (List.mem_iff_getElem?.mpr ⟨s.c, hg⟩)
      unfold IsChar at hv
      have hne : s.c ≠ 10 := by
        intro h10
        rw [h10, hlast] at hg
        exact hv0 (Option.some.inj hg).symm
      subst hs
      refine ⟨⟨hlast, hchar, ?_, ?_, ?_⟩, rfl⟩
      · show s.c + 1 ≤ 10
        omega
      · show -176 * ((s.c + 1 : Nat) : Int) ≤ s.num + (v - 48)
        push_cast
        omega
      · show s.num + (v - 48) ≤ 207 * ((s.c + 1 : Nat) : Int)
        push_cast
        omega

/-- Every state the loop reaches satisfies the loop invariant, and after `k`
executions of the body the offset has advanced by `k`. -/
theorem stateAfter_inv (k : Nat) :
    ∀ s s' : State, LoopInv s → stateAfter k s = some s' →
      LoopInv s' ∧ s'.c = s.c + k := by
  induction k with
  | zero =>
    intro s s' hinv h
    simp only [stateAfter, Option.some.injEq] at h
    subst h
    exact ⟨hinv, rfl⟩
  | succ k ih =>
    intro s s' hinv h
    unfold stateAfter at h
    cases hstep : loopStep s with
    | outOfBounds => rw [hstep] at h; simp at h
    | outOfFuel => rw [hstep] at h; simp at h
    | ok o =>
      rw [hstep] at h
      cases o with
      | none => simp at h
      | some s₁ =>
        simp only at h
        have h₁ := loopStep_inv s s₁ hinv hstep
        have h₂ := ih s₁ s' h₁.1 h
        refine ⟨h₂.1, ?_⟩
        rw [h₂.2, h₁.2]
        omega

/-- Under the loop invariant the loop computes the same with 32-bit and with
exact arithmetic, for every budget. -/
theorem loop_eq_exact (fuel : Nat) :
    ∀ s : State, LoopInv s → loop fuel s = loopExact fuel s := by
  induction fuel with
  | zero => intro s _; rfl
  | succ f ih =>
    intro s hinv
    have hex := loopStep_eq_exact s hinv
    unfold loop loopExact
    rw [← hex]
    cases hstep : loopStep s with
    | outOfBounds => rfl
    | outOfFuel => rfl
    | ok o =>
      cases o with
      | none => rfl
      | some s₁ =>
        simp only
        exact ih s₁ (loopStep_inv s s₁ hinv hstep).1

/-- The initial state of the loop on an 11-byte buffer of chars with last
byte 0 satisfies the loop invariant. -/
theorem loopInv_init (mem : List Int) (hlast : mem[10]? = some 0)
    (hchar : ∀ b ∈ mem, IsChar b) : LoopInv { mem := mem, c := 0, num := 0 } :=
  ⟨hlast, hchar, Nat.zero_le _, by simp, by simp⟩

/-- On an 11-byte buffer of chars with last byte 0 the function computes the
same with 32-bit and with exact arithmetic, for every budget. -/
theorem is_greater_than_42_eq_exact (fuel : Nat) (mem : List Int)
    (hlast : mem[10]? = some 0) (hchar : ∀ b ∈ mem, IsChar b) :
    is_greater_than_42 fuel mem = is_greater_than_42_exact fuel mem := by
  unfold is_greater_than_42 is_greater_than_42_exact
  simp only
  rw [loop_eq_exact fuel _ (loopInv_init mem hlast hchar)]

/-- On a buffer with a 0 byte at index 10 whose content is made of chars the
wrapped running total of the content is the exact digit sum. -/
theorem content_wrapSum (mem : List Int) (hlast : mem[10]? = some 0)
    (hchar : ∀ b ∈ content mem, IsChar b) : wrapSum 0 (content mem) = digitSum mem := by
  have hs := shaped_content mem hlast
  have hle : ((content mem).length : Int) ≤ 10 := by exact_mod_cast hs.2
  have hpos : (0 : Int) ≤ ((content mem).length : Int) := Int.ofNat_nonneg _
  have h := wrapSum_exact (content mem) 0 hchar (by omega) (by omega)
  rw [h, digitSum]
  simp

/-- The sum of `byte - 48` over a list of digit characters lies between 0 and
9 times the length of the list. -/
theorem digits_sum_bounds (l : List Int) (hd : ∀ b ∈ l, 48 ≤ b ∧ b ≤ 57) :
    0 ≤ (l.map (fun b => b - 48)).sum ∧
      (l.map (fun b => b - 48)).sum ≤ 9 * (l.length : Int) := by
  induction l with
  | nil => simp
  | cons v rest ih =>
    have hv := hd v (List.mem_cons_self v rest)
    have hr := ih (fun b hb => hd b (List.mem_cons_of_mem v hb))
    simp only [List.map_cons, List.sum_cons, List.length_cons, Nat.cast_add, Nat.cast_one]
    omega

/-! ## The claims -/

/-- C1: for every 11-byte buffer of chars whose last byte is 0 and whose first
byte is neither 0 nor 45 (the minus sign), `is_greater_than_42` returns a
non-zero value if and only if the sum of `byte - 48` over the bytes strictly
before the first 0 byte is greater than 42.  The content "99999999" sums to
72 and gives 1; the content "5" sums to 5 and gives 0. -/
theorem C1_digit_sum_threshold :
    (∀ (fuel : Nat) (mem : List Int), mem.length = 11 → mem[10]? = some 0 →
      (∀ b ∈ mem, IsChar b) → mem[0]? ≠ some 0 → mem[0]? ≠ some 45 → 11 ≤ fuel →
      ∃ r : Int, is_greater_than_42 fuel mem = Res.ok (r, mem) ∧
        (r ≠ 0 ↔ 42 < digitSum mem)) ∧
    (digitSum [57, 57, 57, 57, 57, 57, 57, 57, 0, 0, 0] = 72 ∧
      is_greater_than_42 11 [57, 57, 57, 57, 57, 57, 57, 57, 0, 0, 0] =
        Res.ok (1, [57, 57, 57, 57, 57, 57, 57, 57, 0, 0, 0])) ∧
    (digitSum [53, 0, 0, 0, 0, 0, 0, 0, 0, 0, 0] = 5 ∧
      is_greater_than_42 11 [53, 0, 0, 0, 0, 0, 0, 0, 0, 0, 0] =
        Res.ok (0, [53, 0, 0, 0, 0, 0, 0, 0, 0, 0, 0])) := by
  refine ⟨?_, ⟨by decide, by decide⟩, ⟨by decide, by decide⟩⟩
  intro fuel mem _ hlast hchar h0 hminus hfuel
  have heval := shaped_eval fuel mem hlast hfuel
  rw [shaped_wrapSum mem hlast hchar] at heval
  simp only [h0, hminus, or_self, if_false] at heval
  refine ⟨_, heval, ?_⟩
  by_cases hgt : digitSum mem > 42
  · simp [hgt]
  · simp [hgt]

/-- Witness of C1 at the content "7777777" (sum 49). -/
theorem C1_digit_sum_threshold_witness :
    ∃ r : Int, is_greater_than_42 11 [55, 55, 55, 55, 55, 55, 55, 0, 0, 0, 0] =
        Res.ok (r, [55, 55, 55, 55, 55, 55, 55, 0, 0, 0, 0]) ∧
      (r ≠ 0 ↔ 42 < digitSum [55, 55, 55, 55, 55, 55, 55, 0, 0, 0, 0]) :=
  C1_digit_sum_threshold.1 11 [55, 55, 55, 55, 55, 55, 55, 0, 0, 0, 0]
    (by decide) (by decide) (by decide) (by decide) (by decide) (by decide)

/-- C2: for every buffer whose first byte is 45 (the minus sign),
`is_greater_than_42` returns 0, whatever the remaining bytes are and for every
budget.  The content "-9999999" gives 0 although its bytes sum to more than
42. -/
theorem C2_leading_minus :
    (∀ (fuel : Nat) (mem : List Int), mem[0]? = some 45 →
      is_greater_than_42 fuel mem = Res.ok (0, mem)) ∧
    (is_greater_than_42 11 [45, 57, 57, 57, 57, 57, 57, 57, 0, 0, 0] =
        Res.ok (0, [45, 57, 57, 57, 57, 57, 57, 57, 0, 0, 0]) ∧
      42 < digitSum [45, 57, 57, 57, 57, 57, 57, 57, 0, 0, 0]) := by
  refine ⟨?_, by decide, by decide⟩
  intro fuel mem h
  unfold is_greater_than_42
  rw [h]
  simp

/-- Witness of C2 at the content "-99999" followed by non-digit bytes. -/
theorem C2_leading_minus_witness :
    is_greater_than_42 11 [45, 57, 57, 57, 57, 57, 200, -3, 1, 1, 0] =
      Res.ok (0, [45, 57, 57, 57, 57, 57, 200, -3, 1, 1, 0]) :=
  C2_leading_minus.1 11 [45, 57, 57, 57, 57, 57, 200, -3, 1, 1, 0] (by decide)

/-- C3: for every buffer whose first byte is 0, `is_greater_than_42` returns
0, whatever the bytes at the later positions are and for every budget.  The
empty content gives 0. -/
theorem C3_leading_terminator :
    (∀ (fuel : Nat) (mem : List Int), mem[0]? = some 0 →
      is_greater_than_42 fuel mem = Res.ok (0, mem)) ∧
    is_greater_than_42 11 [0, 0, 0, 0, 0, 0, 0, 0, 0, 0, 0] =
      Res.ok (0, [0, 0, 0, 0, 0, 0, 0, 0, 0, 0, 0]) := by
  refine ⟨?_, by decide⟩
  intro fuel mem h
  unfold is_greater_than_42
  rw [h]
  simp

/-- Witness of C3 at a buffer whose bytes after the leading 0 are all '9'. -/
theorem C3_leading_terminator_witness :
    is_greater_than_42 11 [0, 57, 57, 57, 57, 57, 57, 57, 57, 57, 0] =
      Res.ok (0, [0, 57, 57, 57, 57, 57, 57, 57, 57, 57, 0]) :=
  C3_leading_terminator.1 11 [0, 57, 57, 57, 57, 57, 57, 57, 57, 57, 0] (by decide)

/-- C4, as stated, fails: for the assignment with content "5" the classifier
returns 0 on the clamped buffer (not classified as greater than 42), yet `main`
returns 1, not 0. -/
theorem C4_counterexample :
    is_greater_than_42 11 (clampedBuffer [53, 0, 0, 0, 0, 0, 0, 0, 0, 0, 0]) =
        Res.ok (0, [53, 0, 0, 0, 0, 0, 0, 0, 0, 0, 0]) ∧
      main 11 [53, 0, 0, 0, 0, 0, 0, 0, 0, 0, 0] = Res.ok 1 ∧
      ¬ (main 11 [53, 0, 0, 0, 0, 0, 0, 0, 0, 0, 0] = Res.ok 0 ↔
          is_greater_than_42 11 (clampedBuffer [53, 0, 0, 0, 0, 0, 0, 0, 0, 0, 0]) =
            Res.ok (0, clampedBuffer [53, 0, 0, 0, 0, 0, 0, 0, 0, 0, 0])) := by
  decide

/-- C4, amended: for every 11-byte assignment, `main` returns 0 exactly when
`is_greater_than_42` returned a non-zero value on the clamped buffer
(classified as greater than 42), and returns a non-zero value exactly when it
returned 0. -/
theorem C4_exit_convention (fuel : Nat) (assignment : List Int)
    (hlen : assignment.length = 11) (hfuel : 11 ≤ fuel) :
    ∃ r v : Int,
      is_greater_than_42 fuel (clampedBuffer assignment) =
        Res.ok (r, clampedBuffer assignment) ∧
      main fuel assignment = Res.ok v ∧ (v = 0 ↔ r ≠ 0) ∧ (v ≠ 0 ↔ r = 0) := by
  rcases shaped_bool fuel (clampedBuffer assignment)
    (clampedBuffer_last assignment hlen) hfuel with h | h
  · refine ⟨0, 1, h, ?_, by decide, by decide⟩
    unfold main
    rw [h]
    rfl
  · refine ⟨1, 0, h, ?_, by decide, by decide⟩
    unfold main
    rw [h]
    rfl

/-- Witness of the amended C4 at the assignment "99999" with a non-zero byte
chosen for index 10. -/
theorem C4_exit_convention_witness :
    ∃ r v : Int,
      is_greater_than_42 11 (clampedBuffer [57, 57, 57, 57, 57, 0, 0, 0, 0, 0, 9]) =
        Res.ok (r, clampedBuffer [57, 57, 57, 57, 57, 0, 0, 0, 0, 0, 9]) ∧
      main 11 [57, 57, 57, 57, 57, 0, 0, 0, 0, 0, 9] = Res.ok v ∧
      (v = 0 ↔ r ≠ 0) ∧ (v ≠ 0 ↔ r = 0) :=
  C4_exit_convention 11 [57, 57, 57, 57, 57, 0, 0, 0, 0, 0, 9] (by decide) (by decide)

/-- C5: for every 11-byte assignment, `main` returns the logical negation of
the result of `is_greater_than_42` on the assignment with index 10 overwritten
by 0: it returns 1 when that result is 0 and 0 when that result is 1. -/
theorem C5_main_negates (fuel : Nat) (assignment : List Int)
    (hlen : assignment.length = 11) (hfuel : 11 ≤ fuel) :
    ∃ r : Int,
      is_greater_than_42 fuel (assignment.set 10 0) = Res.ok (r, assignment.set 10 0) ∧
      ((r = 0 ∧ main fuel assignment = Res.ok 1) ∨
        (r = 1 ∧ main fuel assignment = Res.ok 0)) := by
  have hlast := clampedBuffer_last assignment hlen
  have hmain : main fuel assignment =
      match is_greater_than_42 fuel (assignment.set 10 0) with
      | Res.outOfBounds => Res.outOfBounds
      | Res.outOfFuel => Res.outOfFuel
      | Res.ok (r, _) => Res.ok (if r = 0 then 1 else 0) := by
    unfold main
    rw [clampedBuffer_eq assignment hlen]
  rw [clampedBuffer_eq assignment hlen] at hlast
  rcases shaped_bool fuel (assignment.set 10 0) hlast hfuel with h | h
  · refine ⟨0, h, Or.inl ⟨rfl, ?_⟩⟩
    rw [hmain, h]
    rfl
  · refine ⟨1, h, Or.inr ⟨rfl, ?_⟩⟩
    rw [hmain, h]
    rfl

/-- Witness of C5 at the assignment "888888" with byte 77 chosen for index
10. -/
theorem C5_main_negates_witness :
    ∃ r : Int,
      is_greater_than_42 11 ([56, 56, 56, 56, 56, 56, 0, 0, 0, 0, 77].set 10 0) =
        Res.ok (r, [56, 56, 56, 56, 56, 56, 0, 0, 0, 0, 77].set 10 0) ∧
      ((r = 0 ∧ main 11 [56, 56, 56, 56, 56, 56, 0, 0, 0, 0, 77] = Res.ok 1) ∨
        (r = 1 ∧ main 11 [56, 56, 56, 56, 56, 56, 0, 0, 0, 0, 77] = Res.ok 0)) :=
  C5_main_negates 11 [56, 56, 56, 56, 56, 56, 0, 0, 0, 0, 77] (by decide) (by decide)

/-- C6: for every 11-byte assignment the array of `main` has 11 bytes and byte
0 at index 10 after the clamp; for every budget neither the loop, nor
`is_greater_than_42`, nor `main` takes the out-of-bounds branch of the index;
and with a budget of at least 11 the loop stops at an offset of at most 10,
having summed the at most 10 bytes before that offset. -/
theorem C6_clamp_bounds_scan (assignment : List Int) (hlen : assignment.length = 11) :
    (clampedBuffer assignment).length = 11 ∧
    (clampedBuffer assignment)[10]? = some 0 ∧
    (∀ fuel : Nat,
      loop fuel { mem := clampedBuffer assignment, c := 0, num := 0 } ≠ Res.outOfBounds ∧
      is_greater_than_42 fuel (clampedBuffer assignment) ≠ Res.outOfBounds ∧
      main fuel assignment ≠ Res.outOfBounds) ∧
    (∀ fuel : Nat, 11 ≤ fuel →
      ∃ s : State, loop fuel { mem := clampedBuffer assignment, c := 0, num := 0 } = Res.ok s ∧
        s.c ≤ 10 ∧ s.c = (content (clampedBuffer assignment)).length ∧
        s.num = wrapSum 0 ((clampedBuffer assignment).take s.c)) := by
  have hlast := clampedBuffer_last assignment hlen
  have hs := shaped_content (clampedBuffer assignment) hlast
  refine ⟨clampedBuffer_length assignment hlen, hlast, ?_, ?_⟩
  · intro fuel
    have hno := is_greater_than_42_no_oob fuel (clampedBuffer assignment) hs.1
    refine ⟨loop_no_oob fuel _ 0 hs.1, hno, ?_⟩
    unfold main
    cases hr : is_greater_than_42 fuel (clampedBuffer assignment) with
    | outOfBounds => exact absurd hr hno
    | outOfFuel => simp
    | ok p => simp
  · intro fuel hfuel
    refine ⟨_, shaped_loop fuel _ hlast hfuel, hs.2, rfl, ?_⟩
    simp only
    rw [content_eq_take]

/-- Witness of C6 at an assignment of eleven bytes 'z' (no 0 byte chosen by
the provider). -/
theorem C6_clamp_bounds_scan_witness :
    (clampedBuffer [122, 122, 122, 122, 122, 122, 122, 122, 122, 122, 122]).length = 11 ∧
    (clampedBuffer [122, 122, 122, 122, 122, 122, 122, 122, 122, 122, 122])[10]? = some 0 ∧
    (∀ fuel : Nat,
      loop fuel { mem := clampedBuffer [122, 122, 122, 122, 122, 122, 122, 122, 122, 122, 122],
                  c := 0, num := 0 } ≠ Res.outOfBounds ∧
      is_greater_than_42 fuel
        (clampedBuffer [122, 122, 122, 122, 122, 122, 122, 122, 122, 122, 122]) ≠
          Res.outOfBounds ∧
      main fuel [122, 122, 122, 122, 122, 122, 122, 122, 122, 122, 122] ≠ Res.outOfBounds) ∧
    (∀ fuel : Nat, 11 ≤ fuel →
      ∃ s : State,
        loop fuel { mem := clampedBuffer [122, 122, 122, 122, 122, 122, 122, 122, 122, 122, 122],
                    c := 0, num := 0 } = Res.ok s ∧
        s.c ≤ 10 ∧
        s.c = (content
          (clampedBuffer [122, 122, 122, 122, 122, 122, 122, 122, 122, 122, 122])).length ∧
        s.num = wrapSum 0
          ((clampedBuffer [122, 122, 122, 122, 122, 122, 122, 122, 122, 122, 122]).take s.c)) :=
  C6_clamp_bounds_scan [122, 122, 122, 122, 122, 122, 122, 122, 122, 122, 122] (by decide)

/-- C7: on every 11-byte buffer whose last byte is 0, whatever its other bytes
are, with a budget of at least 11 condition evaluations the loop stops after
at most 10 executions of its body and `is_greater_than_42` returns 0 or 1. -/
theorem C7_total (fuel : Nat) (mem : List Int) (hlen : mem.length = 11)
    (hlast : mem[10]? = some 0) (hfuel : 11 ≤ fuel) :
    ∃ (r : Int) (s : State),
      is_greater_than_42 fuel mem = Res.ok (r, mem) ∧ (r = 0 ∨ r = 1) ∧
      loop fuel { mem := mem, c := 0, num := 0 } = Res.ok s ∧ s.c ≤ 10 := by
  have _hshape := hlen
  have hs := shaped_content mem hlast
  rcases shaped_bool fuel mem hlast hfuel with h | h
  · exact ⟨0, _, h, Or.inl rfl, shaped_loop fuel mem hlast hfuel, hs.2⟩
  · exact ⟨1, _, h, Or.inr rfl, shaped_loop fuel mem hlast hfuel, hs.2⟩

/-- Witness of C7 at a buffer of non-digit bytes with a minus sign in a
non-leading position. -/
theorem C7_total_witness :
    ∃ (r : Int) (s : State),
      is_greater_than_42 11 [200, 45, -128, 255, 1, 45, 127, -1, 33, 90, 0] =
        Res.ok (r, [200, 45, -128, 255, 1, 45, 127, -1, 33, 90, 0]) ∧ (r = 0 ∨ r = 1) ∧
      loop 11 { mem := [200, 45, -128, 255, 1, 45, 127, -1, 33, 90, 0], c := 0, num := 0 } =
        Res.ok s ∧ s.c ≤ 10 :=
  C7_total 11 [200, 45, -128, 255, 1, 45, 127, -1, 33, 90, 0] (by decide) (by decide)
    (by decide)

/-- C8: `is_greater_than_42` does not modify its input: whenever a call
returns, the array after the call is the array before the call. -/
theorem C8_no_mutation (fuel : Nat) (mem : List Int) (r : Int) (mem' : List Int)
    (h : is_greater_than_42 fuel mem = Res.ok (r, mem')) : mem' = mem :=
  is_greater_than_42_mem fuel mem r mem' h

/-- Witness of C8 at the content "66666666" (sum 48), where the call
returns 1. -/
theorem C8_no_mutation_witness :
    is_greater_than_42 11 [54, 54, 54, 54, 54, 54, 54, 54, 0, 0, 0] =
        Res.ok (1, [54, 54, 54, 54, 54, 54, 54, 54, 0, 0, 0]) ∧
      ([54, 54, 54, 54, 54, 54, 54, 54, 0, 0, 0] : List Int) =
        [54, 54, 54, 54, 54, 54, 54, 54, 0, 0, 0] :=
  ⟨by decide, C8_no_mutation 11 [54, 54, 54, 54, 54, 54, 54, 54, 0, 0, 0] 1
    [54, 54, 54, 54, 54, 54, 54, 54, 0, 0, 0] (by decide)⟩

/-- C9: on every 11-byte buffer whose last byte is 0, two successive calls of
`is_greater_than_42`, the second on the memory the first left, both return,
with the same result, and leave the buffer as it was. -/
theorem C9_same_result_twice (fuel₁ fuel₂ : Nat) (mem : List Int) (hlen : mem.length = 11)
    (hlast : mem[10]? = some 0) (hfuel₁ : 11 ≤ fuel₁) (hfuel₂ : 11 ≤ fuel₂) :
    ∃ r : Int, is_greater_than_42 fuel₁ mem = Res.ok (r, mem) ∧
      is_greater_than_42 fuel₂ mem = Res.ok (r, mem) ∧
      callTwice fuel₁ fuel₂ mem = Res.ok (r, r, mem) := by
  have _hshape := hlen
  have e₁ := shaped_eval fuel₁ mem hlast hfuel₁
  have e₂ := shaped_eval fuel₂ mem hlast hfuel₂
  refine ⟨_, e₁, e₂, ?_⟩
  unfold callTwice
  rw [e₁]
  simp only
  rw [e₂]

/-- Witness of C9 at the content "1234567899" (sum 54), with different
budgets for the two calls. -/
theorem C9_same_result_twice_witness :
    ∃ r : Int,
      is_greater_than_42 11 [49, 50, 51, 52, 53, 54, 55, 56, 57, 57, 0] =
        Res.ok (r, [49, 50, 51, 52, 53, 54, 55, 56, 57, 57, 0]) ∧
      is_greater_than_42 20 [49, 50, 51, 52, 53, 54, 55, 56, 57, 57, 0] =
        Res.ok (r, [49, 50, 51, 52, 53, 54, 55, 56, 57, 57, 0]) ∧
      callTwice 11 20 [49, 50, 51, 52, 53, 54, 55, 56, 57, 57, 0] =
        Res.ok (r, r, [49, 50, 51, 52, 53, 54, 55, 56, 57, 57, 0]) :=
  C9_same_result_twice 11 20 [49, 50, 51, 52, 53, 54, 55, 56, 57, 57, 0] (by decide)
    (by decide) (by decide) (by decide)

/-- C10: no digit validation occurs.  On the content "9A9" the byte 'A' (65)
contributes 65 - 48 = 17: the loop step at offset 1 takes the total from 9 to
26, the loop ends at offset 3 with total 9 + 17 + 9 = 35, and
`is_greater_than_42` returns 0, for every budget of at least 4. -/
theorem C10_no_digit_validation (k : Nat) :
    loopStep { mem := [57, 65, 57, 0, 0, 0, 0, 0, 0, 0, 0], c := 1, num := 9 } =
      Res.ok (some { mem := [57, 65, 57, 0, 0, 0, 0, 0, 0, 0, 0], c := 2, num := 9 + 17 }) ∧
    loop (k + 4) { mem := [57, 65, 57, 0, 0, 0, 0, 0, 0, 0, 0], c := 0, num := 0 } =
      Res.ok { mem := [57, 65, 57, 0, 0, 0, 0, 0, 0, 0, 0], c := 3, num := 9 + 17 + 9 } ∧
    digitSum [57, 65, 57, 0, 0, 0, 0, 0, 0, 0, 0] = 35 ∧
    is_greater_than_42 (k + 4) [57, 65, 57, 0, 0, 0, 0, 0, 0, 0, 0] =
      Res.ok (0, [57, 65, 57, 0, 0, 0, 0, 0, 0, 0, 0]) := by
  have hc : content [57, 65, 57, 0, 0, 0, 0, 0, 0, 0, 0] = [57, 65, 57] := by decide
  have hw : wrapSum 0 [57, 65, 57] = 35 := by decide
  have h0 : (0 : Int) ∈ [57, 65, 57, 0, 0, 0, 0, 0, 0, 0, 0] := by decide
  have hf : (content [57, 65, 57, 0, 0, 0, 0, 0, 0, 0, 0]).length < k + 4 := by
    rw [hc]; simp
  refine ⟨by decide, ?_, by decide, ?_⟩
  · have h := loop_run [57, 65, 57, 0, 0, 0, 0, 0, 0, 0, 0] [] 0 (k + 4) h0 hf
    rw [hc, hw] at h
    simpa using h
  · have h := is_greater_than_42_eval (k + 4) [57, 65, 57, 0, 0, 0, 0, 0, 0, 0, 0] h0 hf
    rw [hc, hw] at h
    rw [h]
    decide

/-- C11: `main` has no failure path.  For every 11-byte assignment and a
budget of at least 11 it returns 0 or 1, and two assignments with the same
first 10 bytes give the same value: the byte chosen for index 10 has no
effect. -/
theorem C11_main_total (fuel : Nat) (a₁ a₂ : List Int) (h₁ : a₁.length = 11)
    (h₂ : a₂.length = 11) (hagree : a₁.take 10 = a₂.take 10) (hfuel : 11 ≤ fuel) :
    ∃ v : Int, main fuel a₁ = Res.ok v ∧ main fuel a₂ = Res.ok v ∧ (v = 0 ∨ v = 1) := by
  have hbuf : clampedBuffer a₂ = clampedBuffer a₁ := by
    rw [clampedBuffer_take a₁ h₁, clampedBuffer_take a₂ h₂, hagree]
  have hmain : main fuel a₂ = main fuel a₁ := by
    unfold main
    rw [hbuf]
  rw [hmain]
  rcases shaped_bool fuel (clampedBuffer a₁) (clampedBuffer_last a₁ h₁) hfuel with h | h
  · refine ⟨1, ?_, ?_, Or.inr rfl⟩ <;>
    · unfold main
      rw [h]
      rfl
  · refine ⟨0, ?_, ?_, Or.inl rfl⟩ <;>
    · unfold main
      rw [h]
      rfl

/-- Witness of C11 at two assignments with content "9A", an early 0 byte,
bytes after it, and different bytes chosen for index 10. -/
theorem C11_main_total_witness :
    ∃ v : Int, main 11 [57, 65, 0, 57, 57, 57, 57, 57, 57, 57, 5] = Res.ok v ∧
      main 11 [57, 65, 0, 57, 57, 57, 57, 57, 57, 57, 200] = Res.ok v ∧ (v = 0 ∨ v = 1) :=
  C11_main_total 11 [57, 65, 0, 57, 57, 57, 57, 57, 57, 57, 5]
    [57, 65, 0, 57, 57, 57, 57, 57, 57, 57, 200] (by decide) (by decide) (by decide)
    (by decide)

/-- C12: the classification has no positional weighting.  For contents `s`
and `t` of at most 10 non-zero bytes, `t` a permutation of `s`, neither
beginning with 45 (the minus sign), each followed by a 0 byte and then by
anything, `is_greater_than_42` returns the same result on both buffers. -/
theorem C12_permutation_invariant (fuel : Nat) (s t p q : List Int)
    (hperm : List.Perm s t) (hlen : s.length ≤ 10) (hnz : ∀ b ∈ s, b ≠ 0)
    (hs : s.head? ≠ some 45) (ht : t.head? ≠ some 45) (hfuel : 11 ≤ fuel) :
    ∃ r : Int, is_greater_than_42 fuel (s ++ 0 :: p) = Res.ok (r, s ++ 0 :: p) ∧
      is_greater_than_42 fuel (t ++ 0 :: q) = Res.ok (r, t ++ 0 :: q) := by
  have hnzt : ∀ b ∈ t, b ≠ 0 := fun b hb => hnz b (hperm.mem_iff.mpr hb)
  have hcs := content_append_zero s p hnz
  have hct := content_append_zero t q hnzt
  have hlt : t.length ≤ 10 := by rw [← hperm.length_eq]; exact hlen
  have es := is_greater_than_42_eval_simplified fuel (s ++ 0 :: p) (by simp)
    (by rw [hcs]; omega)
  have et := is_greater_than_42_eval_simplified fuel (t ++ 0 :: q) (by simp)
    (by rw [hct]; omega)
  have hs45 : (s ++ 0 :: p)[0]? ≠ some 45 := by
    cases s with
    | nil => simp
    | cons v rest => simpa using hs
  have ht45 : (t ++ 0 :: q)[0]? ≠ some 45 := by
    cases t with
    | nil => simp
    | cons v rest => simpa using ht
  have hsum : wrapSum 0 t = wrapSum 0 s := by
    rw [wrapSum_zero, wrapSum_zero, (hperm.map (fun b => b - 48)).sum_eq]
  rw [hcs, if_neg hs45] at es
  rw [hct, if_neg ht45, hsum] at et
  exact ⟨_, es, et⟩

/-- Witness of C12 at the content "9876544" (sum 43) and its reversal, in
11-byte buffers. -/
theorem C12_permutation_invariant_witness :
    ∃ r : Int,
      is_greater_than_42 11 ([57, 56, 55, 54, 53, 52, 52] ++ 0 :: [0, 0, 0]) =
        Res.ok (r, [57, 56, 55, 54, 53, 52, 52] ++ 0 :: [0, 0, 0]) ∧
      is_greater_than_42 11 ([52, 52, 53, 54, 55, 56, 57] ++ 0 :: [0, 0, 0]) =
        Res.ok (r, [52, 52, 53, 54, 55, 56, 57] ++ 0 :: [0, 0, 0]) :=
  C12_permutation_invariant 11 [57, 56, 55, 54, 53, 52, 52] [52, 52, 53, 54, 55, 56, 57]
    [0, 0, 0] [0, 0, 0] (List.reverse_perm [52, 52, 53, 54, 55, 56, 57]) (by decide)
    (by decide) (by decide) (by decide) (by decide)

/-- C13: bytes after the first 0 byte have no influence.  Two 11-byte buffers
with last byte 0 that agree at every position up to and including the first 0
byte of the first one give the same result. -/
theorem C13_bytes_after_terminator (fuel : Nat) (mem₁ mem₂ : List Int)
    (hlen₁ : mem₁.length = 11) (hlen₂ : mem₂.length = 11)
    (hlast₁ : mem₁[10]? = some 0) (hlast₂ : mem₂[10]? = some 0)
    (hagree : ∀ i : Nat, i ≤ (content mem₁).length → mem₁[i]? = mem₂[i]?)
    (hfuel : 11 ≤ fuel) :
    ∃ r : Int, is_greater_than_42 fuel mem₁ = Res.ok (r, mem₁) ∧
      is_greater_than_42 fuel mem₂ = Res.ok (r, mem₂) := by
  have _hshape := And.intro hlen₁ hlen₂
  have hs₁ := shaped_content mem₁ hlast₁
  have hc := content_congr mem₁ mem₂ hs₁.1 hagree
  have hhead := hagree 0 (Nat.zero_le _)
  have e₁ := shaped_eval fuel mem₁ hlast₁ hfuel
  have e₂ := shaped_eval fuel mem₂ hlast₂ hfuel
  rw [hc, ← hhead] at e₂
  exact ⟨_, e₁, e₂⟩

/-- Witness of C13 at two buffers with content "66666666" (sum 48) that
differ after the first 0 byte. -/
theorem C13_bytes_after_terminator_witness :
    ∃ r : Int,
      is_greater_than_42 11 [54, 54, 54, 54, 54, 54, 54, 54, 0, 57, 0] =
        Res.ok (r, [54, 54, 54, 54, 54, 54, 54, 54, 0, 57, 0]) ∧
      is_greater_than_42 11 [54, 54, 54, 54, 54, 54, 54, 54, 0, 45, 0] =
        Res.ok (r, [54, 54, 54, 54, 54, 54, 54, 54, 0, 45, 0]) :=
  C13_bytes_after_terminator 11 [54, 54, 54, 54, 54, 54, 54, 54, 0, 57, 0]
    [54, 54, 54, 54, 54, 54, 54, 54, 0, 45, 0] (by decide) (by decide) (by decide)
    (by decide) (by decide) (by decide)

/-- C14: the running total never overflows a 32-bit `int`.  On every 11-byte
buffer with last byte 0 whose bytes are char values of either signedness, the
total after any number `k` of executions of the loop body lies in
`[-1760, 2070]` (with `k` at most 10 and the offset equal to `k`), and for
every budget the function computed with 32-bit arithmetic equals the function
computed with exact integer arithmetic. -/
theorem C14_no_overflow (mem : List Int) (hlen : mem.length = 11)
    (hlast : mem[10]? = some 0) (hchar : ∀ b ∈ mem, IsChar b) :
    (∀ (k : Nat) (s : State), stateAfter k { mem := mem, c := 0, num := 0 } = some s →
      s.c = k ∧ k ≤ 10 ∧ -1760 ≤ s.num ∧ s.num ≤ 2070) ∧
    (∀ fuel : Nat, is_greater_than_42 fuel mem = is_greater_than_42_exact fuel mem) := by
  have _hshape := hlen
  refine ⟨?_, fun fuel => is_greater_than_42_eq_exact fuel mem hlast hchar⟩
  intro k s hk
  obtain ⟨⟨_, _, hc, hlo, hhi⟩, hck⟩ :=
    stateAfter_inv k _ s (loopInv_init mem hlast hchar) hk
  simp only [Nat.zero_add] at hck
  have hc' : (s.c : Int) ≤ 10 := by exact_mod_cast hc
  have hpos : (0 : Int) ≤ (s.c : Int) := Int.ofNat_nonneg _
  refine ⟨hck, ?_, ?_, ?_⟩
  · omega
  · omega
  · omega

/-- Witness of C14 at the buffer of ten bytes 255 (as unsigned chars), where
the total after 10 iterations is 2070, the upper end of the range. -/
theorem C14_no_overflow_witness :
    stateAfter 10
        { mem := [255, 255, 255, 255, 255, 255, 255, 255, 255, 255, 0], c := 0, num := 0 } =
      some { mem := [255, 255, 255, 255, 255, 255, 255, 255, 255, 255, 0],
             c := 10, num := 2070 } ∧
    ((∀ (k : Nat) (s : State),
        stateAfter k
          { mem := [255, 255, 255, 255, 255, 255, 255, 255, 255, 255, 0], c := 0, num := 0 } =
            some s →
        s.c = k ∧ k ≤ 10 ∧ -1760 ≤ s.num ∧ s.num ≤ 2070) ∧
      (∀ fuel : Nat,
        is_greater_than_42 fuel [255, 255, 255, 255, 255, 255, 255, 255, 255, 255, 0] =
          is_greater_than_42_exact fuel
            [255, 255, 255, 255, 255, 255, 255, 255, 255, 255, 0])) :=
  ⟨by decide,
    C14_no_overflow [255, 255, 255, 255, 255, 255, 255, 255, 255, 255, 0] (by decide)
      (by decide) (by decide)⟩

/-- C15: the check for an empty buffer is redundant with the summation.  On
every 11-byte buffer of chars with last byte 0, `is_greater_than_42` returns
the value of the simplified classifier, which has no such check. -/
theorem C15_empty_check_redundant (fuel : Nat) (mem : List Int) (hlen : mem.length = 11)
    (hlast : mem[10]? = some 0) (hchar : ∀ b ∈ mem, IsChar b) (hfuel : 11 ≤ fuel) :
    is_greater_than_42 fuel mem = Res.ok (simplified_is_greater_than_42 mem, mem) := by
  have _hshape := hlen
  have hs := shaped_content mem hlast
  rw [is_greater_than_42_eval_simplified fuel mem hs.1 (by omega),
    shaped_wrapSum mem hlast hchar]
  rfl

/-- Witness of C15 at a buffer with empty content (first byte 0) and bytes
'9' after it, where the explicit check fires in the code. -/
theorem C15_empty_check_redundant_witness :
    is_greater_than_42 11 [0, 57, 57, 57, 57, 57, 57, 57, 57, 57, 0] =
      Res.ok (simplified_is_greater_than_42 [0, 57, 57, 57, 57, 57, 57, 57, 57, 57, 0],
        [0, 57, 57, 57, 57, 57, 57, 57, 57, 57, 0]) :=
  C15_empty_check_redundant 11 [0, 57, 57, 57, 57, 57, 57, 57, 57, 57, 0] (by decide)
    (by decide) (by decide) (by decide)

/-- C16: on every 11-byte buffer with last byte 0 whose content is made only
of the digit characters 48..57, a non-zero result implies a content of at
least 5 characters, and a content of at most 4 characters has digit sum at
most 36 and result 0.  The content "99999" has sum 45 and result 1; the
content "9999" has sum 36 and result 0. -/
theorem C16_digits_need_five :
    (∀ (fuel : Nat) (mem : List Int), mem.length = 11 → mem[10]? = some 0 →
      (∀ b ∈ content mem, 48 ≤ b ∧ b ≤ 57) → 11 ≤ fuel →
      ∃ r : Int, is_greater_than_42 fuel mem = Res.ok (r, mem) ∧
        (r ≠ 0 → 5 ≤ (content mem).length) ∧
        ((content mem).length ≤ 4 → digitSum mem ≤ 36 ∧ r = 0)) ∧
    (digitSum [57, 57, 57, 57, 57, 0, 0, 0, 0, 0, 0] = 45 ∧
      is_greater_than_42 11 [57, 57, 57, 57, 57, 0, 0, 0, 0, 0, 0] =
        Res.ok (1, [57, 57, 57, 57, 57, 0, 0, 0, 0, 0, 0])) ∧
    (digitSum [57, 57, 57, 57, 0, 0, 0, 0, 0, 0, 0] = 36 ∧
      is_greater_than_42 11 [57, 57, 57, 57, 0, 0, 0, 0, 0, 0, 0] =
        Res.ok (0, [57, 57, 57, 57, 0, 0, 0, 0, 0, 0, 0])) := by
  refine ⟨?_, ⟨by decide, by decide⟩, ⟨by decide, by decide⟩⟩
  intro fuel mem _ hlast hd hfuel
  have hs := shaped_content mem hlast
  have hchar : ∀ b ∈ content mem, IsChar b := by
    intro b hb
    have := hd b hb
    unfold IsChar
    omega
  have heval := is_greater_than_42_eval_simplified fuel mem hs.1 (by omega)
  rw [content_wrapSum mem hlast hchar] at heval
  have hb := digits_sum_bounds (content mem) hd
  have hsum : digitSum mem = ((content mem).map (fun b => b - 48)).sum := rfl
  rw [← hsum] at hb
  refine ⟨_, heval, ?_, ?_⟩
  · intro hr
    by_cases h45 : mem[0]? = some 45
    · simp [h45] at hr
    · by_cases hgt : digitSum mem > 42
      · have : (42 : Int) < 9 * ((content mem).length : Int) := lt_of_lt_of_le hgt hb.2
        omega
      · simp [h45, hgt] at hr
  · intro hle
    have hle' : ((content mem).length : Int) ≤ 4 := by exact_mod_cast hle
    have h36 : digitSum mem ≤ 36 := by omega
    refine ⟨h36, ?_⟩
    have hgt : ¬ digitSum mem > 42 := by omega
    simp [hgt]

/-- Witness of C16 at the content "12345" (sum 15, five digits). -/
theorem C16_digits_need_five_witness :
    ∃ r : Int, is_greater_than_42 11 [49, 50, 51, 52, 53, 0, 0, 0, 0, 0, 0] =
        Res.ok (r, [49, 50, 51, 52, 53, 0, 0, 0, 0, 0, 0]) ∧
      (r ≠ 0 → 5 ≤ (content [49, 50, 51, 52, 53, 0, 0, 0, 0, 0, 0]).length) ∧
      ((content [49, 50, 51, 52, 53, 0, 0, 0, 0, 0, 0]).length ≤ 4 →
        digitSum [49, 50, 51, 52, 53, 0, 0, 0, 0, 0, 0] ≤ 36 ∧ r = 0) :=
  C16_digits_need_five.1 11 [49, 50, 51, 52, 53, 0, 0, 0, 0, 0, 0] (by decide) (by decide)
    (by decide) (by decide)

end Doco
